import Mathlib

/-!
Verification of the ring-channel betting backend against its specification.

The definitions below are shallow embeddings of the Rust source:
* `src/src/battle.rs` — match settlement (`calculate_winnings`, `get_total_pot`);
* `src/src/routes/battle/wager.rs` — wager upsert validation (`create`) and the
  automated counter-wagerer (`rebalance_automated_wagers`), plus the three
  wager read endpoints (`list`, `show_self`, `show`);
* `src/src/routes/battle/mod.rs` — the match status `update` handler;
* `src/src/room/protocol.rs` — the socket `Heartbeater`;
* `src/model/src/user.rs` — username normalization (`to_username_lossy`);
* `src/src/player/mmr/` — the Glicko-2 deviation bookkeeping.

Machine integers (`i32`, `i64`) are modelled as `Int` (no arithmetic here comes
close to overflow), SQL rows as Lean structures, SQL queries as list
operations, and timestamps as integer instants with an explicit `now`
parameter.  Rust `i64` division (which truncates toward zero) is `Int.tdiv`.
-/

namespace RingChannel

/-- Team side, `model/src/battle.rs` (`PlayerTeam`; red = 0, blue = 1). -/
inductive PlayerTeam where
  | red
  | blue
  deriving DecidableEq

/-- Match status, `model/src/battle.rs` (`BattleStatus`). -/
inductive BattleStatus where
  | ongoing
  | concluded
  | cancelled
  deriving DecidableEq

/-- User flag set, `model/src/user.rs` (`UserFlags` bitflags). -/
structure UserFlags where
  unlimited_wagers : Bool
  automated_user : Bool
  beta_tester : Bool
  deriving DecidableEq

/-! ## Settlement: `src/src/battle.rs` (`calculate_winnings`) -/

/-- A `participant` row as read by the winner query in `calculate_winnings`
(plus the columns the query filters/orders on). -/
structure ParticipantRow where
  team : PlayerTeam
  finish_time : Option Int
  no_contest : Bool
  deriving DecidableEq

/-- A row of the wager/user join (`WagerQuery` in `calculate_winnings`):
`w.user_id, w.victor, w.mobiums, u.mobiums AS user_mobiums`. -/
structure WagerRow where
  user_id : Int
  victor : PlayerTeam
  mobiums : Int
  user_mobiums : Int
  deriving DecidableEq

/-- The per-wager effect of settlement: the computed `mobiums_change`, the
balance written back by the `UPDATE user` statement, and whether the bailout
fired (the `MobiumsChange` payload carries `new_mobiums` and `bailout`). -/
structure BalanceUpdate where
  user_id : Int
  mobiums_change : Int
  new_mobiums : Int
  bailout : Bool
  deriving DecidableEq

/-- Pot sum for one team: `SELECT SUM(w.mobiums) FROM wager w WHERE match_id =
$1 AND w.victor = $2` (`get_total_pot`). -/
def get_total_pot (ws : List WagerRow) (team : PlayerTeam) : Int :=
  ((ws.filter (fun w => w.victor = team)).map (fun w => w.mobiums)).sum

/-- The comparison behind `ORDER BY finish_time ASC` in SQLite: `NULL` sorts
before every value in ascending order. -/
def finish_before (a b : Option Int) : Bool :=
  match a, b with
  | none, none => false
  | none, some _ => true
  | some _, none => false
  | some x, some y => decide (x < y)

/-- One step of scanning for the row `ORDER BY finish_time ASC LIMIT 1` would
return: keep the earlier row on ties (SQLite returns rows in rowid, i.e.
insertion, order). -/
def select_step (acc : Option ParticipantRow) (p : ParticipantRow) : Option ParticipantRow :=
  match acc with
  | none => some p
  | some q => if finish_before p.finish_time q.finish_time then some p else some q

/-- The winner query of `calculate_winnings`: `SELECT team FROM participant
WHERE match_id = $1 AND NOT no_contest ORDER BY finish_time ASC LIMIT 1`. -/
def select_winner (ps : List ParticipantRow) : Option ParticipantRow :=
  (ps.filter (fun p => !p.no_contest)).foldl select_step none

/-- Settlement of a concluded match, `calculate_winnings` in
`src/src/battle.rs` lines 55-181.  Returns the balance updates in wager order;
an early return produces no updates.  Rust `/` on `i64` is `Int.tdiv`. -/
def calculate_winnings (ps : List ParticipantRow) (ws : List WagerRow) :
    List BalanceUpdate :=
  let red_pot := get_total_pot ws PlayerTeam.red
  let blue_pot := get_total_pot ws PlayerTeam.blue
  if red_pot ≤ 0 ∨ blue_pot ≤ 0 then
    []
  else
    let total_winnings := red_pot + blue_pot
    match select_winner ps with
    | none => []
    | some winner =>
      ws.map (fun w =>
        let mobiums_change :=
          if w.victor = winner.team then
            let pot := if w.victor = PlayerTeam.red then red_pot else blue_pot
            Int.tdiv (total_winnings * w.mobiums) pot - w.mobiums
          else
            - w.mobiums
        let new_mobiums := w.user_mobiums + mobiums_change
        if new_mobiums ≤ 0 then
          { user_id := w.user_id, mobiums_change := mobiums_change,
            new_mobiums := 100, bailout := true }
        else
          { user_id := w.user_id, mobiums_change := mobiums_change,
            new_mobiums := new_mobiums, bailout := false })

/-! ## Socket heartbeats: `src/src/room/protocol.rs` (`Heartbeater`) -/

/-- Constant `HEARTBEAT_GRACE_DURATION` (5 seconds); durations and instants are
modelled in whole seconds. -/
def HEARTBEAT_GRACE_DURATION : Nat := 5

/-- The `Heartbeater` state: the configured interval, the instant at which the
current liveness timer fires (`timeout`, a `Sleep` created at instant `now`
for `interval + grace`), and the highest acknowledged sequence number. -/
structure Heartbeater where
  interval : Nat
  deadline : Nat
  seq : Int
  deriving DecidableEq

/-- Constructor `Heartbeater::new(interval)`: the timer is armed at creation time and
`seq` starts at 0. -/
def Heartbeater.new (interval now : Nat) : Heartbeater :=
  { interval := interval
    deadline := now + interval + HEARTBEAT_GRACE_DURATION
    seq := 0 }

/-- Default construction `Heartbeater::default()`: a 30-second interval. -/
def Heartbeater.mkDefault (now : Nat) : Heartbeater :=
  Heartbeater.new 30 now

/-- Method `Heartbeater::ack`: a heartbeat with `seq > self.seq` re-arms the timer,
records the new sequence number and yields a `HeartbeatAck` with the same
`seq`; anything else is ignored. -/
def Heartbeater.ack (h : Heartbeater) (now : Nat) (seq : Int) :
    Heartbeater × Option Int :=
  if h.seq < seq then
    ({ interval := h.interval
       deadline := now + h.interval + HEARTBEAT_GRACE_DURATION
       seq := seq }, some seq)
  else
    (h, none)

/-! ## Wager upsert validation: `src/src/routes/battle/wager.rs` (`create`) -/

/-- The error tags `create` can produce before the upsert happens. -/
inductive AppErrorKind where
  | invalid_csrf_token
  | invalid_data
  | not_enough_mobiums
  | not_found
  deriving DecidableEq

/-- The authenticated session user as seen by `create` (`SessionUser`):
current balance and flags. -/
structure SessionUserRow where
  mobiums : Int
  flags : UserFlags
  deriving DecidableEq

/-- The `BattleQuery` row fetched by `create`: status and bet-window close
instant. -/
structure BattleRow where
  status : BattleStatus
  closed_at : Int
  deriving DecidableEq

/-- The validation chain of `create` (lines 226-314), in source order: CSRF,
non-negative amount, balance check, match lookup, ongoing status, the 3-second
grace window, and a non-empty chosen team.  `team_count` is the result of the
participant-count query for the requested team. -/
def create_wager (session_csrf req_csrf : Nat) (req_mobiums : Int)
    (user : SessionUserRow) (battle : Option BattleRow) (now : Int)
    (team_count : Int) : Except AppErrorKind Unit :=
  if session_csrf ≠ req_csrf then
    Except.error AppErrorKind.invalid_csrf_token
  else if req_mobiums < 0 then
    Except.error AppErrorKind.invalid_data
  else if user.mobiums < req_mobiums then
    Except.error AppErrorKind.not_enough_mobiums
  else
    match battle with
    | none => Except.error AppErrorKind.not_found
    | some battle =>
      if battle.status ≠ BattleStatus.ongoing then
        Except.error AppErrorKind.invalid_data
      else if battle.closed_at + 3 < now then
        Except.error AppErrorKind.invalid_data
      else if team_count ≤ 0 then
        Except.error AppErrorKind.invalid_data
      else
        Except.ok ()

/-! ## Match status update: `src/src/routes/battle/mod.rs` (`update`) -/

/-- What the `update` handler does once its guards pass: whether the
no-contest sweep ran, the written `closed_at`, the written status, whether the
per-participant Glicko-2 updates ran, and whether settlement
(`calculate_winnings`) ran. -/
structure UpdateEffects where
  no_contest_applied : Bool
  closed_at : Int
  new_status : BattleStatus
  ratings_updated : Bool
  settlement_run : Bool
  deriving DecidableEq

/-- The control flow of `update` (lines 256-413).  `none` models the
`already-concluded` rejection of a non-ongoing match.  `num_rated` is the
number of participants that have a current rating (`ratings.len()`).  Ratings
are recomputed when the requested status is `concluded` **or** `cancelled`
and more than one participant is rated; settlement runs only for
`concluded`. -/
def update_battle (current : BattleStatus) (req_status : Option BattleStatus)
    (closed_at now : Int) (num_rated : Nat) : Option UpdateEffects :=
  let is_status_changed :=
    match req_status with
    | some s => decide (s ≠ current)
    | none => false
  if current ≠ BattleStatus.ongoing then
    none
  else
    some
      { no_contest_applied := is_status_changed
        closed_at := if is_status_changed ∧ now < closed_at then now else closed_at
        new_status :=
          if is_status_changed then req_status.getD current else current
        ratings_updated :=
          decide ((req_status = some BattleStatus.concluded ∨
            req_status = some BattleStatus.cancelled) ∧ 1 < num_rated)
        settlement_run := decide (req_status = some BattleStatus.concluded) }

/-! ## Automated counter-wagerer: `rebalance_automated_wagers` -/

/-- A `wager` row as the rebalance query sees it. -/
structure BotWagerRow where
  user_id : Int
  victor : PlayerTeam
  mobiums : Int
  deriving DecidableEq

/-- One row of `WagerCountQuery`: for a team present among the participants,
the number of positive wagers and the number of positive bot wagers. -/
structure WagerCount where
  victor : PlayerTeam
  wager_count : Int
  bot_wagers : Int
  deriving DecidableEq

/-- An emitted bot-wager mutation: either a fresh bot wager of the configured
amount, or a bot wager zeroed out (each is paired with a *wager-update*
broadcast in the source). -/
inductive BotAction where
  | create (team : PlayerTeam) (amount : Int)
  | zero (team : PlayerTeam)
  deriving DecidableEq

/-- The per-team aggregation of the rebalance query: `SUM(w.mobiums > 0)` and
`SUM(w.is_bot_wager AND w.mobiums > 0)` over the wagers of one match, grouped
by team. -/
def count_wagers_for_team (ws : List BotWagerRow) (bot_id : Int)
    (t : PlayerTeam) : WagerCount :=
  { victor := t
    wager_count :=
      ((ws.filter (fun w => decide (w.victor = t ∧ 0 < w.mobiums))).length : Int)
    bot_wagers :=
      ((ws.filter (fun w =>
        decide (w.victor = t ∧ 0 < w.mobiums ∧ w.user_id = bot_id))).length : Int) }

/-- Function `rebalance_automated_wagers` (lines 370-483).  `teams` is the result of
`SELECT DISTINCT p.team FROM participant p`.  If exactly one team has no
non-bot positive wager (`wager_count - bot_wagers <= 0`), a bot wager is
created there — but only when the bot has no positive wager on that side
already; otherwise every team with a positive bot wager has it zeroed. -/
def rebalance_automated_wagers (teams : List PlayerTeam)
    (ws : List BotWagerRow) (bot_id amount : Int) : List BotAction :=
  let wager_counts := teams.map (count_wagers_for_team ws bot_id)
  match wager_counts.filter (fun q => decide (q.wager_count - q.bot_wagers ≤ 0)) with
  | [wager_info] =>
    if wager_info.bot_wagers ≤ 0 then
      [BotAction.create wager_info.victor amount]
    else
      []
  | _ =>
    (wager_counts.filter (fun q => decide (0 < q.bot_wagers))).map
      (fun q => BotAction.zero q.victor)

/-- The specification's team-local human wager count: wagers with positive
mobiums by users other than the bot. -/
def human_wager_count (ws : List BotWagerRow) (bot_id : Int)
    (t : PlayerTeam) : Nat :=
  (ws.filter (fun w =>
    decide (w.victor = t ∧ 0 < w.mobiums ∧ w.user_id ≠ bot_id))).length

/-- The specification's team-local bot wager count: positive wagers owned by
the bot. -/
def bot_wager_count (ws : List BotWagerRow) (bot_id : Int)
    (t : PlayerTeam) : Nat :=
  (ws.filter (fun w =>
    decide (w.victor = t ∧ 0 < w.mobiums ∧ w.user_id = bot_id))).length

/-! ## Wager read endpoints: `list`, `show_self`, `show` -/

/-- A row of the wager/user join used by all three read endpoints. -/
structure WagerJoinRow where
  user_id : Int
  username : String
  victor : PlayerTeam
  mobiums : Int
  deriving DecidableEq

/-- Endpoint `list` (lines 26-89): all wagers of the match with `w.mobiums > 0`. -/
def list_wagers (db : List WagerJoinRow) : List WagerJoinRow :=
  db.filter (fun w => decide (0 < w.mobiums))

/-- Endpoint `show_self` (lines 92-157): the session user's wager, with a
`w.mobiums > 0` condition; no row is a `not-found` error. -/
def show_self (db : List WagerJoinRow) (user_id : Int) :
    Except AppErrorKind WagerJoinRow :=
  match db.find? (fun w => decide (0 < w.mobiums ∧ w.user_id = user_id)) with
  | some w => Except.ok w
  | none => Except.error AppErrorKind.not_found

/-- Endpoint `show` (lines 160-223): lookup by username — the query has **no**
`mobiums` condition. -/
def show_wager (db : List WagerJoinRow) (username : String) :
    Except AppErrorKind WagerJoinRow :=
  match db.find? (fun w => decide (w.username = username)) with
  | some w => Except.ok w
  | none => Except.error AppErrorKind.not_found

/-! ## Username normalization: `model/src/user.rs` (`to_username_lossy`) -/

/-- Predicate `is_username_char`: ASCII lowercase, ASCII digit, `_` or `-`
(`Char.isLower`/`Char.isDigit` are exactly the ASCII ranges). -/
def is_username_char (ch : Char) : Bool :=
  ch.isLower || ch.isDigit || ch == '_' || ch == '-'

/-- Rust `ch.to_lowercase()` on an ASCII uppercase character yields the single
character 32 code points later. -/
def ascii_to_lower (ch : Char) : Char :=
  Char.ofNat (ch.toNat + 32)

/-- The borrow `&username[mark..ix]`; byte offsets in the source always fall
on character boundaries, so they are modelled as character indices. -/
def username_slice (l : List Char) (a b : Nat) : List Char :=
  (l.drop a).take (b - a)

/-- The character loop of `to_username_lossy` (lines 90-111): `buf` is the
output accumulator, `mark` the start of the current run of valid characters,
`ix` the index of `ch`, and `is_valid` whether the previous character was
valid.  Valid runs are flushed into `buf` lazily; an uppercase character is
folded to lowercase; any other invalid character is dropped. -/
def to_username_lossy_go (username rest buf : List Char) (mark ix : Nat)
    (is_valid : Bool) : List Char :=
  match rest with
  | [] =>
    let mark := if is_valid then mark else username.length
    if 0 < mark then buf ++ username.drop mark else username
  | ch :: rest =>
    if is_username_char ch then
      if is_valid then
        to_username_lossy_go username rest buf mark (ix + 1) true
      else
        to_username_lossy_go username rest buf ix (ix + 1) true
    else
      let buf := if is_valid then buf ++ username_slice username mark ix else buf
      let buf := if ch.isUpper then buf ++ [ascii_to_lower ch] else buf
      to_username_lossy_go username rest buf mark (ix + 1) false

/-- Function `to_username_lossy` (lines 81-123): when the whole input is already a
valid username (`mark` still 0 at the end) the input is returned unchanged
(the borrowed `Cow`); otherwise the accumulated buffer plus the trailing
valid run. -/
def to_username_lossy (username : List Char) : List Char :=
  to_username_lossy_go username username [] 0 0 true

/-- The per-character effect of the loop: keep valid characters, fold ASCII
uppercase to lowercase, drop everything else. -/
def username_clean_char (ch : Char) : Option Char :=
  if is_username_char ch then some ch
  else if ch.isUpper then some (ascii_to_lower ch) else none

/-- The straight-line description of the normalization. -/
def username_clean (l : List Char) : List Char :=
  l.filterMap username_clean_char

/-! ## Glicko-2 deviation bookkeeping: `src/src/player/mmr/` -/

/-- A player rating triple (`PlayerRating` / `CurrentPlayerRating` carry the
same three numeric fields).  The `f32` arithmetic of the source is modelled
over the reals. -/
structure GlickoRating where
  rating : ℝ
  deviation : ℝ
  volatility : ℝ

/-- Step 2 of `glicko2::rate` (`to_glicko2`): `(mu, phi)` on the Glicko-2
scale. -/
noncomputable def to_glicko2 (p : GlickoRating) : ℝ × ℝ :=
  ((p.rating - 1500) / 173.7178, p.deviation / 173.7178)

/-- Function `calculate_pre_rating_period_value`: `sqrt(phi² + fractional_period ·
volatility²)`, the modified step-6 value. -/
noncomputable def calculate_pre_rating_period_value
    (new_volatility phi fractional_period : ℝ) : ℝ :=
  Real.sqrt (phi ^ 2 + fractional_period * new_volatility ^ 2)

/-- Function `glicko2::rate` on an empty matchup list (lines 45-53): only step 6 runs,
rating and volatility are unchanged and the deviation becomes the pre-rating-
period value scaled back to the Glicko scale. -/
noncomputable def rate_no_matchups (p : GlickoRating)
    (fractional_period : ℝ) : GlickoRating :=
  let phi := (to_glicko2 p).2
  let new_phi := calculate_pre_rating_period_value p.volatility phi fractional_period
  { rating := p.rating
    deviation := new_phi * 173.7178
    volatility := p.volatility }

/-- The deviation written by `update_rating` (`src/src/player/mmr/mod.rs`
lines 198-219): the engine output is capped,
`new_rating.deviation.min(config.defaults.deviation)`. -/
noncomputable def update_rating_stored_deviation
    (rate_deviation default_deviation : ℝ) : ℝ :=
  min rate_deviation default_deviation

/-- The deviation written for one player by the rollover loop of
`next_rating_period` (lines 309-349): `glicko2::rate(config, player,
matchups, 1.0)` is stored as-is, with no cap.  For a player with no matchups
in the closed period this is the empty-matchup branch of `rate`. -/
noncomputable def rollover_stored_deviation (p : GlickoRating) : ℝ :=
  (rate_no_matchups p 1).deviation

/-- Interpretation of a `finish_time` column under `ORDER BY finish_time ASC`
in SQLite: `NULL` compares below every integer. -/
def finish_key : Option Int → WithBot Int
  | none => ⊥
  | some x => (x : WithBot Int)

/-! ## Helper lemmas -/

theorem finish_before_iff (a b : Option Int) :
    finish_before a b = true ↔ finish_key a < finish_key b := by
  cases a <;> cases b <;>
    simp [finish_before, finish_key, WithBot.bot_lt_coe, WithBot.coe_lt_coe]

theorem select_fold_spec (l : List ParticipantRow) :
    ∀ (acc : Option ParticipantRow) (r : ParticipantRow),
      l.foldl select_step acc = some r →
      (acc = some r ∨ r ∈ l) ∧
      (∀ a, acc = some a → ¬ finish_key a.finish_time < finish_key r.finish_time) ∧
      (∀ q ∈ l, ¬ finish_key q.finish_time < finish_key r.finish_time) := by
  induction l with
  | nil =>
    intro acc r h
    simp only [List.foldl_nil] at h
    refine ⟨Or.inl h, ?_, by simp⟩
    intro a ha
    rw [h] at ha
    cases ha
    exact lt_irrefl _
  | cons p l ih =>
    intro acc r h
    rw [List.foldl_cons] at h
    obtain ⟨hmem, hacc, hl⟩ := ih (select_step acc p) r h
    have hp : ¬ finish_key p.finish_time < finish_key r.finish_time := by
      cases acc with
      | none =>
        exact hacc p rfl
      | some a =>
        by_cases hfb : finish_before p.finish_time a.finish_time = true
        · exact hacc p (by simp [select_step, hfb])
        · have ha := hacc a (by simp [select_step, hfb])
          intro hlt
          exact ha (lt_of_le_of_lt
            (le_of_not_lt (fun hc => hfb ((finish_before_iff _ _).mpr hc))) hlt)
    refine ⟨?_, ?_, ?_⟩
    · cases acc with
      | none =>
        rcases hmem with hstep | hin
        · simp only [select_step] at hstep
          cases hstep
          exact Or.inr (List.mem_cons_self _ _)
        · exact Or.inr (List.mem_cons_of_mem _ hin)
      | some a =>
        rcases hmem with hstep | hin
        · by_cases hfb : finish_before p.finish_time a.finish_time = true
          · simp only [select_step, hfb, if_true] at hstep
            cases hstep
            exact Or.inr (List.mem_cons_self _ _)
          · simp only [select_step, hfb, if_false] at hstep
            exact Or.inl hstep
        · exact Or.inr (List.mem_cons_of_mem _ hin)
    · intro a ha
      subst ha
      by_cases hfb : finish_before p.finish_time a.finish_time = true
      · have hpa := (finish_before_iff _ _).mp hfb
        intro hlt
        exact hp (lt_trans hpa hlt)
      · exact hacc a (by simp [select_step, hfb])
    · intro q hq
      rcases List.mem_cons.mp hq with rfl | hin
      · exact hp
      · exact hl q hin

theorem select_winner_spec (ps : List ParticipantRow) (wp : ParticipantRow)
    (h : select_winner ps = some wp) :
    wp ∈ ps ∧ wp.no_contest = false ∧
      ∀ q ∈ ps, q.no_contest = false →
        ¬ finish_key q.finish_time < finish_key wp.finish_time := by
  obtain ⟨hmem, _, hmin⟩ := select_fold_spec _ none wp h
  have hmem2 : wp ∈ ps.filter (fun p => !p.no_contest) := by
    rcases hmem with hbad | hin
    · cases hbad
    · exact hin
  obtain ⟨hps, hnc⟩ := List.mem_filter.mp hmem2
  refine ⟨hps, by simpa using hnc, ?_⟩
  intro q hq hqnc
  exact hmin q (List.mem_filter.mpr ⟨hq, by simp [hqnc]⟩)

theorem positive_wagers_split (ws : List BotWagerRow) (bot_id : Int) (t : PlayerTeam) :
    (ws.filter (fun w => decide (w.victor = t ∧ 0 < w.mobiums))).length =
      bot_wager_count ws bot_id t + human_wager_count ws bot_id t := by
  unfold bot_wager_count human_wager_count
  induction ws with
  | nil => rfl
  | cons w ws ih =>
    rw [List.filter_cons, List.filter_cons, List.filter_cons]
    by_cases h1 : w.victor = t ∧ 0 < w.mobiums
    · by_cases h2 : w.user_id = bot_id
      · rw [if_pos (by simp only [decide_eq_true_eq]; tauto),
          if_pos (by simp only [decide_eq_true_eq]; tauto),
          if_neg (by simp only [decide_eq_true_eq]; tauto)]
        simp only [List.length_cons]
        omega
      · rw [if_pos (by simp only [decide_eq_true_eq]; tauto),
          if_neg (by simp only [decide_eq_true_eq]; tauto),
          if_pos (by simp only [decide_eq_true_eq]; tauto)]
        simp only [List.length_cons]
        omega
    · rw [if_neg (by simp only [decide_eq_true_eq]; tauto),
        if_neg (by simp only [decide_eq_true_eq]; tauto),
        if_neg (by simp only [decide_eq_true_eq]; tauto)]
      exact ih

theorem count_wagers_empty_iff (ws : List BotWagerRow) (bot_id : Int) (t : PlayerTeam) :
    ((count_wagers_for_team ws bot_id t).wager_count -
        (count_wagers_for_team ws bot_id t).bot_wagers ≤ 0) ↔
      human_wager_count ws bot_id t = 0 := by
  unfold count_wagers_for_team
  simp only []
  have h := positive_wagers_split ws bot_id t
  unfold bot_wager_count at h
  omega

theorem count_wagers_bot_pos_iff (ws : List BotWagerRow) (bot_id : Int) (t : PlayerTeam) :
    (0 < (count_wagers_for_team ws bot_id t).bot_wagers) ↔
      0 < bot_wager_count ws bot_id t := by
  unfold count_wagers_for_team bot_wager_count
  simp only []
  omega

theorem empty_wagers_eq (teams : List PlayerTeam) (ws : List BotWagerRow) (bot_id : Int) :
    (teams.map (count_wagers_for_team ws bot_id)).filter
        (fun q => decide (q.wager_count - q.bot_wagers ≤ 0)) =
      (teams.filter (fun t => decide (human_wager_count ws bot_id t = 0))).map
        (count_wagers_for_team ws bot_id) := by
  rw [List.filter_map]
  congr 1
  apply List.filter_congr
  intro t _
  simp only [Function.comp, decide_eq_decide]
  exact count_wagers_empty_iff ws bot_id t

theorem bot_pos_wagers_eq (teams : List PlayerTeam) (ws : List BotWagerRow) (bot_id : Int) :
    (teams.map (count_wagers_for_team ws bot_id)).filter
        (fun q => decide (0 < q.bot_wagers)) =
      (teams.filter (fun t => decide (0 < bot_wager_count ws bot_id t))).map
        (count_wagers_for_team ws bot_id) := by
  rw [List.filter_map]
  congr 1
  apply List.filter_congr
  intro t _
  simp only [Function.comp, decide_eq_decide]
  exact count_wagers_bot_pos_iff ws bot_id t

theorem username_slice_full (l : List Char) (mark : Nat) :
    username_slice l mark l.length = l.drop mark := by
  unfold username_slice
  apply List.take_of_length_le
  rw [List.length_drop]

theorem username_slice_snoc (l : List Char) (mark ix : Nat) (ch : Char)
    (rest : List Char) (hm : mark ≤ ix) (hd : l.drop ix = ch :: rest) :
    username_slice l mark (ix + 1) = username_slice l mark ix ++ [ch] := by
  unfold username_slice
  have h1 : ix + 1 - mark = (ix - mark) + 1 := by omega
  rw [h1, List.take_add]
  congr 1
  have h2 : List.drop (ix - mark) (List.drop mark l) = ch :: rest := by
    rw [List.drop_drop]
    have h3 : mark + (ix - mark) = ix := by omega
    rw [h3, hd]
  rw [h2]
  rfl

theorem to_username_lossy_go_spec (username : List Char) (rest : List Char) :
    ∀ (buf : List Char) (mark ix : Nat) (is_valid : Bool),
      ix + rest.length = username.length →
      username.drop ix = rest →
      (is_valid = true → mark ≤ ix ∧
        (∀ c ∈ username_slice username mark ix, is_username_char c = true) ∧
        (mark = 0 → buf = [])) →
      (is_valid = false → 0 < ix) →
      to_username_lossy_go username rest buf mark ix is_valid =
        (if is_valid then buf ++ username_slice username mark ix else buf) ++
          username_clean rest := by
  induction rest with
  | nil =>
    intro buf mark ix is_valid hlen hdrop hvalid hinvalid
    have hix : ix = username.length := by simpa using hlen
    cases is_valid with
    | true =>
      obtain ⟨hm, _, hb⟩ := hvalid rfl
      unfold to_username_lossy_go
      simp only [if_pos rfl, if_true]
      by_cases hmark : 0 < mark
      · rw [if_pos hmark]
        rw [username_clean, List.filterMap_nil, List.append_nil, hix,
          username_slice_full]
      · have hm0 : mark = 0 := by omega
        rw [if_neg hmark]
        rw [hm0, hb hm0, username_clean, List.filterMap_nil, List.append_nil, hix,
          username_slice_full, List.drop_zero, List.nil_append]
    | false =>
      have h0 : 0 < username.length := hix ▸ hinvalid rfl
      unfold to_username_lossy_go
      simp only [Bool.false_eq_true, if_false]
      rw [if_pos h0, List.drop_length, List.append_nil, username_clean,
        List.filterMap_nil, List.append_nil]
  | cons ch rest ih =>
    intro buf mark ix is_valid hlen hdrop hvalid hinvalid
    have hlen2 : (ix + 1) + rest.length = username.length := by
      simp only [List.length_cons] at hlen
      omega
    have hdrop2 : username.drop (ix + 1) = rest := by
      have h1 : List.drop 1 (List.drop ix username) = rest := by
        rw [hdrop]
        rfl
      rw [List.drop_drop] at h1
      exact h1
    by_cases hch : is_username_char ch = true
    · have hclean : username_clean (ch :: rest) = ch :: username_clean rest := by
        unfold username_clean
        rw [List.filterMap_cons]
        simp only [username_clean_char, if_pos hch]
      cases is_valid with
      | true =>
        obtain ⟨hm, hall, hb⟩ := hvalid rfl
        have hsnoc := username_slice_snoc username mark ix ch rest hm hdrop
        unfold to_username_lossy_go
        simp only [hch, if_true]
        rw [ih buf mark (ix + 1) true hlen2 hdrop2 ?_ (by simp)]
        · simp only [if_pos rfl, if_true, hclean, hsnoc]
          simp only [List.append_assoc, List.cons_append, List.nil_append,
            List.singleton_append]
        · intro _
          refine ⟨by omega, ?_, hb⟩
          intro c hc
          rw [hsnoc] at hc
          rcases List.mem_append.mp hc with hc1 | hc2
          · exact hall c hc1
          · rw [List.mem_singleton.mp hc2]
            exact hch
      | false =>
        have hix : 0 < ix := hinvalid rfl
        have hsnoc := username_slice_snoc username ix ix ch rest (le_refl ix) hdrop
        have hnil : username_slice username ix ix = [] := by
          unfold username_slice
          simp
        unfold to_username_lossy_go
        simp only [hch, if_true, Bool.false_eq_true, if_false]
        rw [ih buf ix (ix + 1) true hlen2 hdrop2 ?_ (by simp)]
        · simp only [if_pos rfl, if_true, hclean, hsnoc, hnil]
          simp only [List.append_assoc, List.nil_append, List.singleton_append]
        · intro _
          refine ⟨by omega, ?_, fun h0 => absurd h0 (by omega)⟩
          intro c hc
          rw [hsnoc, hnil, List.nil_append] at hc
          rw [List.mem_singleton.mp hc]
          exact hch
    · have hclean : username_clean (ch :: rest) =
          (if ch.isUpper then [ascii_to_lower ch] else []) ++ username_clean rest := by
        unfold username_clean
        rw [List.filterMap_cons]
        by_cases hu : ch.isUpper = true
        · simp only [username_clean_char, hch, if_false, if_pos hu]
          rfl
        · simp only [username_clean_char, hch, Bool.false_eq_true, if_false, if_neg hu]
          rfl
      unfold to_username_lossy_go
      simp only [hch, Bool.false_eq_true, if_false]
      rw [ih _ mark (ix + 1) false hlen2 hdrop2 (by simp) (by omega)]
      cases is_valid with
      | true =>
        by_cases hu : ch.isUpper = true <;>
          simp [hclean, hu, List.append_assoc]
      | false =>
        by_cases hu : ch.isUpper = true <;>
          simp [hclean, hu, List.append_assoc]

theorem to_username_lossy_eq_clean (l : List Char) :
    to_username_lossy l = username_clean l := by
  have h := to_username_lossy_go_spec l l [] 0 0 true (by simp) (by simp)
    (fun _ => ⟨le_refl 0, fun c hc => by simp [username_slice] at hc, fun _ => rfl⟩)
    (by simp)
  simpa [username_slice] using h

theorem char_ofNat_toNat (n : Nat) (h : n < 128) : (Char.ofNat n).toNat = n := by
  have hv : n.isValidChar := Or.inl (by omega)
  rw [Char.ofNat, dif_pos hv]
  simp [Char.ofNatAux, Char.toNat, UInt32.toNat, BitVec.toNat_ofNat]

theorem char_isUpper_toNat (c : Char) (h : c.isUpper = true) :
    65 ≤ c.toNat ∧ c.toNat ≤ 90 := by
  simp only [Char.isUpper, Bool.and_eq_true, decide_eq_true_eq, ge_iff_le] at h
  obtain ⟨h1, h2⟩ := h
  rw [UInt32.le_def, BitVec.le_def] at h1 h2
  have e1 : (UInt32.toBitVec 65).toNat = 65 := rfl
  have e2 : (UInt32.toBitVec 90).toNat = 90 := rfl
  simp only [Char.toNat, UInt32.toNat] at *
  omega

theorem char_isLower_of_toNat (d : Char) (h1 : 97 ≤ d.toNat) (h2 : d.toNat ≤ 122) :
    d.isLower = true := by
  simp only [Char.isLower, Bool.and_eq_true, decide_eq_true_eq, ge_iff_le]
  have e1 : (UInt32.toBitVec 97).toNat = 97 := rfl
  have e2 : (UInt32.toBitVec 122).toNat = 122 := rfl
  constructor <;>
    (rw [UInt32.le_def, BitVec.le_def]
     simp only [Char.toNat, UInt32.toNat] at *
     omega)

theorem ascii_to_lower_valid (c : Char) (h : c.isUpper = true) :
    is_username_char (ascii_to_lower c) = true := by
  obtain ⟨hb1, hb2⟩ := char_isUpper_toNat c h
  have hofn : (Char.ofNat (c.toNat + 32)).toNat = c.toNat + 32 :=
    char_ofNat_toNat _ (by omega)
  have hlow : (Char.ofNat (c.toNat + 32)).isLower = true :=
    char_isLower_of_toNat _ (by omega) (by omega)
  unfold is_username_char ascii_to_lower
  simp [hlow]

theorem mem_username_clean_valid (l : List Char) (c : Char)
    (hc : c ∈ username_clean l) : is_username_char c = true := by
  unfold username_clean at hc
  rw [List.mem_filterMap] at hc
  obtain ⟨a, _, ha⟩ := hc
  unfold username_clean_char at ha
  by_cases h1 : is_username_char a = true
  · rw [if_pos h1] at ha
    cases ha
    exact h1
  · rw [if_neg h1] at ha
    by_cases h2 : a.isUpper = true
    · rw [if_pos h2] at ha
      cases ha
      exact ascii_to_lower_valid a h2
    · rw [if_neg h2] at ha
      cases ha

theorem username_clean_of_valid (l : List Char)
    (h : ∀ c ∈ l, is_username_char c = true) : username_clean l = l := by
  induction l with
  | nil => rfl
  | cons c l ih =>
    unfold username_clean at *
    rw [List.filterMap_cons]
    have hc := h c (List.mem_cons_self c l)
    simp only [username_clean_char, if_pos hc]
    rw [ih (fun x hx => h x (List.mem_cons_of_mem _ hx))]

theorem rollover_default_deviation_grows :
    (350 : ℝ) < rollover_stored_deviation ⟨1500, 350, 0.06⟩ := by
  unfold rollover_stored_deviation rate_no_matchups calculate_pre_rating_period_value
    to_glicko2
  simp only []
  have hc : (0 : ℝ) < 173.7178 := by norm_num
  have hphi : (0 : ℝ) ≤ 350 / 173.7178 := by positivity
  have hsq : ((350 : ℝ) / 173.7178) ^ 2 < (350 / 173.7178) ^ 2 + 1 * (0.06 : ℝ) ^ 2 := by
    nlinarith
  have h1 : (350 : ℝ) / 173.7178 <
      Real.sqrt ((350 / 173.7178) ^ 2 + 1 * (0.06 : ℝ) ^ 2) := by
    calc (350 : ℝ) / 173.7178 = Real.sqrt (((350 : ℝ) / 173.7178) ^ 2) :=
          (Real.sqrt_sq hphi).symm
      _ < _ := Real.sqrt_lt_sqrt (sq_nonneg _) hsq
  calc (350 : ℝ) = 350 / 173.7178 * 173.7178 := by field_simp
    _ < Real.sqrt ((350 / 173.7178) ^ 2 + 1 * (0.06 : ℝ) ^ 2) * 173.7178 :=
        mul_lt_mul_of_pos_right h1 hc

/-! ## Claim theorems -/

/-- C1: the claim says a user holding the unlimited-wagers flag receives no
bailout and keeps a (possibly negative) post-delta balance.  The settlement
code never reads user flags: its wager query selects only `user_id, victor,
mobiums, user_mobiums`, and the bailout branch fires for every wager whose
post-delta balance is ≤ 0.  Failing input: user 7 holds `unlimited-wagers`,
has 50 mobiums and loses a 100-mobium wager on blue (red wins the
two-participant match shown); the code resets the balance to 100 and
increments the bailout counter instead of writing −50 with no bailout. -/
theorem c1_settlement_bailout_fires_for_flagged_user :
    calculate_winnings
        [⟨PlayerTeam.red, some 1000, false⟩, ⟨PlayerTeam.blue, some 2000, false⟩]
        [⟨1, PlayerTeam.red, 100, 500⟩, ⟨7, PlayerTeam.blue, 100, 50⟩] =
      [⟨1, 100, 600, false⟩, ⟨7, -100, 100, true⟩] := by
  decide

/-- C2: the claim says a user holding the unlimited-wagers flag is never
rejected with `not-enough-mobiums`.  The balance check in `create`
(`update_wager.mobiums > user.mobiums`) precedes everything but the CSRF and
sign checks and consults no flags: a user with balance 0 requesting a
1-mobium wager on an ongoing match is rejected no matter which flags —
including `unlimited-wagers` — they hold. -/
theorem c2_balance_check_rejects_unlimited_wagers_user (flags : UserFlags) :
    create_wager 0 0 1 ⟨0, flags⟩ (some ⟨BattleStatus.ongoing, 100⟩) 0 2 =
      Except.error AppErrorKind.not_enough_mobiums := rfl

/-- C2 (witness): the rejection at the concrete flag set holding exactly
`unlimited-wagers`. -/
theorem c2_balance_check_witness :
    create_wager 0 0 1 ⟨0, ⟨true, false, false⟩⟩
        (some ⟨BattleStatus.ongoing, 100⟩) 0 2 =
      Except.error AppErrorKind.not_enough_mobiums :=
  c2_balance_check_rejects_unlimited_wagers_user ⟨true, false, false⟩

/-- C3 (counterexample): the claim says rating updates run iff the new status
is concluded (and more than one participant is rated), and that a cancelled
match gets none.  On an ongoing match updated to `cancelled` with two rated
participants, the `update` handler runs the rating updates. -/
theorem c3_cancelled_update_runs_rating_updates :
    (update_battle BattleStatus.ongoing (some BattleStatus.cancelled) 100 50 2).map
      (fun e => e.ratings_updated) = some true := by
  decide

/-- C3 (amended): on an ongoing match, rating updates run iff the requested
status is `concluded` **or** `cancelled` and more than one participant is
rated; settlement runs iff the requested status is `concluded`. -/
theorem c3_rating_updates_on_terminal_status (current : BattleStatus)
    (req_status : Option BattleStatus) (closed_at now : Int) (num_rated : Nat)
    (h : current = BattleStatus.ongoing) :
    (update_battle current req_status closed_at now num_rated).map
        (fun e => e.ratings_updated) =
      some (decide ((req_status = some BattleStatus.concluded ∨
        req_status = some BattleStatus.cancelled) ∧ 1 < num_rated)) ∧
    (update_battle current req_status closed_at now num_rated).map
        (fun e => e.settlement_run) =
      some (decide (req_status = some BattleStatus.concluded)) := by
  subst h
  exact ⟨rfl, rfl⟩

/-- C3 (witness): the amended claim at a concrete input — concluding an
ongoing match with two rated participants runs both the rating updates and
settlement. -/
theorem c3_rating_updates_witness :
    BattleStatus.ongoing = BattleStatus.ongoing ∧
    ((update_battle BattleStatus.ongoing (some BattleStatus.concluded) 0 0 2).map
        (fun e => e.ratings_updated) = some true ∧
      (update_battle BattleStatus.ongoing (some BattleStatus.concluded) 0 0 2).map
        (fun e => e.settlement_run) = some true) :=
  ⟨rfl, c3_rating_updates_on_terminal_status BattleStatus.ongoing
    (some BattleStatus.concluded) 0 0 2 rfl⟩

/-- C4: settlement computes the two pots as per-team sums; if either pot is
≤ 0, or no `no_contest = false` participant exists, no balance changes; else
the winner is a minimal-finish-time participant among the `no_contest =
false` ones (under SQLite's NULLS-FIRST ascending order), each winning-team
wager changes its user's balance by
`⌊(red_pot + blue_pot) · mobiums / own_pot⌋ − mobiums` (floor division, equal
to Rust's truncating division because all quantities are non-negative), and
each losing-team wager by `−mobiums`. -/
theorem c4_settlement_pots_winner_deltas (ps : List ParticipantRow)
    (ws : List WagerRow) (hm : ∀ w ∈ ws, 0 ≤ w.mobiums) :
    (get_total_pot ws PlayerTeam.red ≤ 0 ∨ get_total_pot ws PlayerTeam.blue ≤ 0 →
      calculate_winnings ps ws = []) ∧
    (ps.filter (fun p => !p.no_contest) = [] → calculate_winnings ps ws = []) ∧
    (∀ wp, select_winner ps = some wp →
      0 < get_total_pot ws PlayerTeam.red → 0 < get_total_pot ws PlayerTeam.blue →
      (wp ∈ ps ∧ wp.no_contest = false ∧
        (∀ q ∈ ps, q.no_contest = false →
          ¬ finish_key q.finish_time < finish_key wp.finish_time)) ∧
      (calculate_winnings ps ws).map (fun u => (u.user_id, u.mobiums_change)) =
        ws.map (fun w =>
          (w.user_id,
            if w.victor = wp.team then
              Int.fdiv
                ((get_total_pot ws PlayerTeam.red + get_total_pot ws PlayerTeam.blue) *
                  w.mobiums)
                (if w.victor = PlayerTeam.red then get_total_pot ws PlayerTeam.red
                 else get_total_pot ws PlayerTeam.blue) -
                w.mobiums
            else - w.mobiums))) := by
  refine ⟨?_, ?_, ?_⟩
  · intro hor
    unfold calculate_winnings
    simp only [if_pos hor]
  · intro hfil
    unfold calculate_winnings
    by_cases hor : get_total_pot ws PlayerTeam.red ≤ 0 ∨ get_total_pot ws PlayerTeam.blue ≤ 0
    · simp only [if_pos hor]
    · simp only [if_neg hor]
      have hw : select_winner ps = none := by
        unfold select_winner
        rw [hfil]
        rfl
      rw [hw]
  · intro wp hwp hred hblue
    refine ⟨select_winner_spec ps wp hwp, ?_⟩
    have hor : ¬ (get_total_pot ws PlayerTeam.red ≤ 0 ∨
        get_total_pot ws PlayerTeam.blue ≤ 0) := by
      omega
    unfold calculate_winnings
    simp only [if_neg hor, hwp]
    rw [List.map_map]
    apply List.map_congr_left
    intro w hw
    have hmob := hm w hw
    simp only [Function.comp]
    by_cases hv : w.victor = wp.team
    · simp only [if_pos hv]
      by_cases hr : w.victor = PlayerTeam.red
      · simp only [if_pos hr]
        rw [Int.tdiv_eq_ediv (by positivity) (le_of_lt hred),
          ← Int.fdiv_eq_ediv _ (le_of_lt hred)]
        split <;> rfl
      · simp only [if_neg hr]
        rw [Int.tdiv_eq_ediv (by positivity) (le_of_lt hblue),
          ← Int.fdiv_eq_ediv _ (le_of_lt hblue)]
        split <;> rfl
    · simp only [if_neg hv]
      split <;> rfl

/-- C4 (witness): the happy-settlement scenario — 200 on red and 100 on blue,
red finishes first — pays the red bettor +100 and takes 100 from the blue
bettor. -/
theorem c4_settlement_witness :
    (∀ w ∈ ([⟨1, PlayerTeam.red, 200, 500⟩, ⟨2, PlayerTeam.blue, 100, 500⟩] :
        List WagerRow), 0 ≤ w.mobiums) ∧
    (calculate_winnings
        [⟨PlayerTeam.red, some 1000, false⟩, ⟨PlayerTeam.blue, some 2000, false⟩]
        [⟨1, PlayerTeam.red, 200, 500⟩, ⟨2, PlayerTeam.blue, 100, 500⟩]).map
      (fun u => (u.user_id, u.mobiums_change)) = [(1, 100), (2, -100)] := by
  constructor
  · decide
  · have h := (c4_settlement_pots_winner_deltas
      [⟨PlayerTeam.red, some 1000, false⟩, ⟨PlayerTeam.blue, some 2000, false⟩]
      [⟨1, PlayerTeam.red, 200, 500⟩, ⟨2, PlayerTeam.blue, 100, 500⟩]
      (by decide)).2.2 ⟨PlayerTeam.red, some 1000, false⟩ (by decide) (by decide)
      (by decide)
    rw [h.2]
    decide

/-- C5 (counterexample): the claim says every stored deviation — including
those written by the rating-period rollover — is at most the configured
default deviation (350 by default).  The rollover loop stores the raw engine
output: a player at the default 350 deviation with no matchups in the closed
period gets `sqrt((350/173.7178)² + 0.06²) · 173.7178 > 350` written. -/
theorem c5_rollover_deviation_exceeds_default :
    (350 : ℝ) < rollover_stored_deviation ⟨1500, 350, 0.06⟩ :=
  rollover_default_deviation_grows

/-- C5 (amended): the on-demand match-triggered update caps the stored
deviation at the configured default (`min`), but the per-player rollover
updates store the engine output unclamped and can exceed the default. -/
theorem c5_deviation_clamp_only_on_demand :
    (∀ d dd : ℝ, update_rating_stored_deviation d dd ≤ dd) ∧
      ∃ p : GlickoRating, p.deviation = 350 ∧ 350 < rollover_stored_deviation p :=
  ⟨fun d dd => min_le_right d dd,
    ⟨⟨1500, 350, 0.06⟩, rfl, rollover_default_deviation_grows⟩⟩

/-- C6 (counterexample): the claim says that whenever it is not the case that
exactly one team has zero human wagers *and* zero bot wagers, every team with
a positive bot wager has it zeroed (and a wager-update emitted).  With one
human wager on red and an existing bot wager on blue, no team has both counts
zero, yet the code emits nothing and leaves the bot wager standing — in
particular no `zero blue` action is produced. -/
theorem c6_lone_empty_team_keeps_bot_wager :
    human_wager_count [⟨1, PlayerTeam.red, 200⟩, ⟨99, PlayerTeam.blue, 400⟩]
        99 PlayerTeam.red = 1 ∧
    human_wager_count [⟨1, PlayerTeam.red, 200⟩, ⟨99, PlayerTeam.blue, 400⟩]
        99 PlayerTeam.blue = 0 ∧
    bot_wager_count [⟨1, PlayerTeam.red, 200⟩, ⟨99, PlayerTeam.blue, 400⟩]
        99 PlayerTeam.red = 0 ∧
    bot_wager_count [⟨1, PlayerTeam.red, 200⟩, ⟨99, PlayerTeam.blue, 400⟩]
        99 PlayerTeam.blue = 1 ∧
    ¬ BotAction.zero PlayerTeam.blue ∈
        rebalance_automated_wagers [PlayerTeam.red, PlayerTeam.blue]
          [⟨1, PlayerTeam.red, 200⟩, ⟨99, PlayerTeam.blue, 400⟩] 99 400 := by
  decide

/-- C6 (amended): after a human wager, if exactly one team has zero human
wagers then a bot wager of the configured amount is created there when the
bot has no positive wager on that side, and nothing is changed when it
already has one; when the number of human-empty teams differs from one,
every team with a positive bot wager has it zeroed and a wager-update
emitted. -/
theorem c6_counter_wagerer_behavior (teams : List PlayerTeam)
    (ws : List BotWagerRow) (bot_id amount : Int) :
    (∀ t, teams.filter (fun t => decide (human_wager_count ws bot_id t = 0)) = [t] →
      bot_wager_count ws bot_id t = 0 →
      rebalance_automated_wagers teams ws bot_id amount = [BotAction.create t amount]) ∧
    (∀ t, teams.filter (fun t => decide (human_wager_count ws bot_id t = 0)) = [t] →
      0 < bot_wager_count ws bot_id t →
      rebalance_automated_wagers teams ws bot_id amount = []) ∧
    ((teams.filter (fun t => decide (human_wager_count ws bot_id t = 0))).length ≠ 1 →
      rebalance_automated_wagers teams ws bot_id amount =
        (teams.filter (fun t => decide (0 < bot_wager_count ws bot_id t))).map
          (fun t => BotAction.zero t)) := by
  simp only [rebalance_automated_wagers, empty_wagers_eq]
  refine ⟨?_, ?_, ?_⟩
  · intro t ht hbot
    rw [ht]
    simp only [List.map_cons, List.map_nil]
    rw [if_pos]
    · rfl
    · unfold count_wagers_for_team
      simp only []
      unfold bot_wager_count at hbot
      omega
  · intro t ht hbot
    rw [ht]
    simp only [List.map_cons, List.map_nil]
    rw [if_neg]
    unfold count_wagers_for_team
    simp only []
    unfold bot_wager_count at hbot
    omega
  · intro hlen
    rcases hfe : teams.filter (fun t => decide (human_wager_count ws bot_id t = 0))
      with _ | ⟨t, rest⟩
    · simp only [List.map_nil]
      rw [bot_pos_wagers_eq, List.map_map]
      rfl
    · rcases rest with _ | ⟨t2, rest2⟩
      · exact absurd (by rw [hfe]; rfl) hlen
      · simp only [List.map_cons]
        rw [bot_pos_wagers_eq, List.map_map]
        rfl

/-- C6 (witness): the amended claim at a concrete input — a single human
wager on red leaves blue human-empty and bot-empty, so a 400-mobium bot
wager is created on blue. -/
theorem c6_counter_wagerer_witness :
    ([PlayerTeam.red, PlayerTeam.blue].filter
        (fun t => decide (human_wager_count [⟨1, PlayerTeam.red, 200⟩] 99 t = 0)) =
      [PlayerTeam.blue]) ∧
    bot_wager_count [⟨1, PlayerTeam.red, 200⟩] 99 PlayerTeam.blue = 0 ∧
    rebalance_automated_wagers [PlayerTeam.red, PlayerTeam.blue]
      [⟨1, PlayerTeam.red, 200⟩] 99 400 = [BotAction.create PlayerTeam.blue 400] :=
  ⟨by decide, by decide,
    (c6_counter_wagerer_behavior [PlayerTeam.red, PlayerTeam.blue]
      [⟨1, PlayerTeam.red, 200⟩] 99 400).1 PlayerTeam.blue (by decide) (by decide)⟩

/-- C7: a heartbeat whose `seq` is at most the highest acknowledged `seq` is
ignored — no state change, no ack; a strictly greater `seq` re-arms the
liveness timer to `interval + grace` from now, records the new highest
`seq`, and yields a heartbeat-ack carrying the same `seq`. -/
theorem c7_heartbeat_ack_behavior (h : Heartbeater) (now : Nat) (s : Int) :
    (s ≤ h.seq → h.ack now s = (h, none)) ∧
    (h.seq < s → h.ack now s =
      ({ interval := h.interval
         deadline := now + h.interval + HEARTBEAT_GRACE_DURATION
         seq := s }, some s)) := by
  constructor
  · intro hle
    unfold Heartbeater.ack
    rw [if_neg (by omega)]
  · intro hlt
    unfold Heartbeater.ack
    rw [if_pos hlt]

/-- C7 (witness): the claim at a concrete input — a heartbeat with `seq = 1`
against state `seq = 0` at instant 100 re-arms the timer to fire at
100 + 30 + 5 and is acknowledged with `seq = 1`. -/
theorem c7_heartbeat_ack_witness :
    ((0 : Int) < 1) ∧
      Heartbeater.ack ⟨30, 35, 0⟩ 100 1 =
        ({ interval := 30, deadline := 135, seq := 1 }, some 1) :=
  ⟨by decide, (c7_heartbeat_ack_behavior ⟨30, 35, 0⟩ 100 1).2 (by decide)⟩

/-- C8: username normalization is idempotent — the loop keeps valid
characters, folds ASCII uppercase to lowercase and drops the rest, so its
output consists of valid characters only and a second pass returns it
unchanged. -/
theorem c8_to_username_lossy_idempotent (s : List Char) :
    to_username_lossy (to_username_lossy s) = to_username_lossy s := by
  rw [to_username_lossy_eq_clean s, to_username_lossy_eq_clean (username_clean s)]
  exact username_clean_of_valid _ (fun c hc => mem_username_clean_valid _ c hc)

/-- C8 (witness): idempotence at one of the source's own test inputs. -/
theorem c8_to_username_lossy_witness :
    to_username_lossy (to_username_lossy "__+Cursed+String***".toList) =
      to_username_lossy "__+Cursed+String***".toList :=
  c8_to_username_lossy_idempotent "__+Cursed+String***".toList

/-- C9: withdrawn wagers (`mobiums = 0`) are invisible to the wager-list
endpoint and make the self-wager endpoint answer `not-found`, but the
show-by-username endpoint has no `mobiums` condition and returns a withdrawn
row with `mobiums = 0`. -/
theorem c9_withdrawn_wager_visibility :
    (∀ (db : List WagerJoinRow), ∀ w ∈ list_wagers db, 0 < w.mobiums) ∧
    (∀ (db : List WagerJoinRow) (uid : Int),
      (∀ w ∈ db, w.user_id = uid → w.mobiums = 0) →
      show_self db uid = Except.error AppErrorKind.not_found) ∧
    show_wager [⟨7, "alice", PlayerTeam.red, 0⟩] "alice" =
      Except.ok ⟨7, "alice", PlayerTeam.red, 0⟩ := by
  refine ⟨?_, ?_, rfl⟩
  · intro db w hw
    have h := List.of_mem_filter hw
    simpa using h
  · intro db uid hall
    unfold show_self
    have hnone : db.find? (fun w => decide (0 < w.mobiums ∧ w.user_id = uid)) = none := by
      rw [List.find?_eq_none]
      intro x hx
      simp only [decide_eq_true_eq, not_and]
      intro hpos huid
      have h0 := hall x hx huid
      omega
    rw [hnone]

/-- C9 (witness): the self-wager endpoint at a concrete input — user 7's only
wager is withdrawn, so their self-wager lookup answers `not-found`. -/
theorem c9_withdrawn_wager_witness :
    (∀ w ∈ ([⟨7, "bob", PlayerTeam.red, 0⟩] : List WagerJoinRow),
      w.user_id = 7 → w.mobiums = 0) ∧
    show_self [⟨7, "bob", PlayerTeam.red, 0⟩] 7 =
      Except.error AppErrorKind.not_found :=
  ⟨by decide,
    c9_withdrawn_wager_visibility.2.1 [⟨7, "bob", PlayerTeam.red, 0⟩] 7 (by decide)⟩

/-- C10: the heartbeat sequence counter starts at 0, so a heartbeat carrying
`seq ≤ 0` is never acknowledged and never re-arms the timer; any heartbeat
that does get acknowledged on a fresh connection carries `seq ≥ 1`. -/
theorem c10_initial_seq_zero_rejects_nonpositive (interval now0 now : Nat) (s : Int) :
    (Heartbeater.new interval now0).seq = 0 ∧
    (s ≤ 0 →
      (Heartbeater.new interval now0).ack now s = (Heartbeater.new interval now0, none)) ∧
    (∀ a : Int, ((Heartbeater.new interval now0).ack now s).2 = some a →
      1 ≤ s ∧ a = s) := by
  refine ⟨rfl, ?_, ?_⟩
  · intro hle
    unfold Heartbeater.ack
    rw [if_neg]
    show ¬ (Heartbeater.new interval now0).seq < s
    have h0 : (Heartbeater.new interval now0).seq = 0 := rfl
    omega
  · intro a ha
    unfold Heartbeater.ack at ha
    by_cases h0 : (Heartbeater.new interval now0).seq < s
    · rw [if_pos h0] at ha
      simp only at ha
      have h1 : (Heartbeater.new interval now0).seq = 0 := rfl
      cases ha
      constructor
      · omega
      · rfl
    · rw [if_neg h0] at ha
      simp only at ha
      cases ha

/-- C10 (witness): the claim at a concrete input — a fresh connection's
heartbeater ignores a first heartbeat with `seq = 0`. -/
theorem c10_initial_seq_witness :
    ((0 : Int) ≤ 0) ∧
      (Heartbeater.new 30 0).ack 7 0 = (Heartbeater.new 30 0, none) :=
  ⟨le_refl 0,
    (c10_initial_seq_zero_rejects_nonpositive 30 0 7 0).2.1 (le_refl 0)⟩

end RingChannel
